import Mathlib

/-!
Verification of the Tehran vendor overlap / analytics engine.

Shallow embedding of the core computations of `modules/data_processor.py`
and `app.py`:
  * approximate overlap detection (`_calculate_simple_overlaps`,
    `_calculate_overlaps_for_subset`, `calculate_overlaps_for_vendors`),
  * per-vendor derived metrics (`_calculate_performance_score`,
    `_categorize_volume`),
  * statistics aggregation (`_calculate_statistics`, the
    `/api/filter_vendors` statistics block),
  * ranking (`/api/rankings/<ranking_type>`),
  * real-time filtering (`filter_vendors_real_time`).

Numeric columns are modelled as exact rationals; the spec's haversine
distance (which does not occur in the code) is modelled over the reals.
-/

namespace Piz

/-- `config.SERVICE_RADIUS` (meters). -/
def SERVICE_RADIUS : ℚ := 3000

/-- A vendor row after ingestion (post-merge, post-bounds-filter, numeric
NaNs filled with 0), as produced by `DataProcessor._process_vendor_data`. -/
structure Vendor where
  vendor_code : String
  latitude : ℚ
  longitude : ℚ
  total_order_count : ℚ
  organic_order_count : ℚ
  non_organic_order_count : ℚ
  organic_ratio : ℚ
  avg_daily_orders : ℚ
deriving DecidableEq

/-- Planar-degree distance used by both approximate overlap tests:
`((lat1 - lat2)**2 + (lon1 - lon2)**2)**0.5`, in degrees. -/
noncomputable def degDistance (la1 lo1 la2 lo2 : ℚ) : ℝ :=
  Real.sqrt (((la1 : ℝ) - (la2 : ℝ)) ^ 2 + ((lo1 : ℝ) - (lo2 : ℝ)) ^ 2)

/-- `overlap_threshold = config.SERVICE_RADIUS * 2 / 111000` (degrees), from
`DataProcessor._calculate_simple_overlaps` / `_calculate_overlaps_for_subset`. -/
def overlapThresholdDeg : ℚ := SERVICE_RADIUS * 2 / 111000

/-- The flagging test of `DataProcessor._calculate_simple_overlaps` and
`_calculate_overlaps_for_subset`: `distance < overlap_threshold`
with `distance` in degrees. -/
def simpleClose (v w : Vendor) : Prop :=
  degDistance v.latitude v.longitude w.latitude w.longitude <
    (overlapThresholdDeg : ℝ)

/-- `degDistance < t` for a positive rational threshold is the same as the
comparison of the squared coordinate differences, over the rationals. -/
theorem degDistance_lt_iff (la1 lo1 la2 lo2 t : ℚ) (ht : 0 < t) :
    degDistance la1 lo1 la2 lo2 < (t : ℝ) ↔
      (la1 - la2) ^ 2 + (lo1 - lo2) ^ 2 < t ^ 2 := by
  rw [degDistance, Real.sqrt_lt' (by exact_mod_cast ht)]
  constructor
  · intro h
    exact_mod_cast h
  · intro h
    exact_mod_cast h

instance (v w : Vendor) : Decidable (simpleClose v w) :=
  decidable_of_iff _
    (degDistance_lt_iff v.latitude v.longitude w.latitude w.longitude
      overlapThresholdDeg (by norm_num [overlapThresholdDeg, SERVICE_RADIUS])).symm

/-- The flagging test of `app.py calculate_overlaps_for_vendors`:
`distance = sqrt(dlat**2 + dlon**2) * 111000` and `distance < 6000`. -/
def appClose (la1 lo1 la2 lo2 : ℚ) : Prop :=
  degDistance la1 lo1 la2 lo2 * 111000 < 6000

theorem appClose_iff (la1 lo1 la2 lo2 : ℚ) :
    appClose la1 lo1 la2 lo2 ↔
      degDistance la1 lo1 la2 lo2 < ((6000 / 111000 : ℚ) : ℝ) := by
  rw [appClose]
  constructor
  · intro h
    nlinarith [h]
  · intro h
    push_cast at h ⊢
    nlinarith [h]

instance (la1 lo1 la2 lo2 : ℚ) : Decidable (appClose la1 lo1 la2 lo2) :=
  decidable_of_iff _
    (((appClose_iff la1 lo1 la2 lo2).trans
      (degDistance_lt_iff la1 lo1 la2 lo2 (6000 / 111000) (by norm_num))).symm)

/-- The nested pair loop shared by `_calculate_overlaps` (exact mode,
`itertools.combinations`) and `_calculate_simple_overlaps` /
`_calculate_overlaps_for_subset` / `calculate_overlaps_for_vendors`
(`for i, v1 in enumerate(...): for v2 in vendors[i+1:]`): every unordered
pair is visited once, first element in input order, and the pair of codes
is recorded when the overlap test `p` holds. -/
def combPairs {α : Type} (code : α → String) (p : α → α → Prop)
    [∀ a b, Decidable (p a b)] : List α → List (String × String)
  | [] => []
  | v :: rest =>
      (rest.filter (fun w => decide (p v w))).map (fun w => (code v, code w)) ++
        combPairs code p rest

/-- `overlapping.add(v1.code); overlapping.add(v2.code)` folded over the
discovered pairs. -/
def pairCodesSet (pairs : List (String × String)) : Finset String :=
  pairs.foldl (fun s pr => insert pr.1 (insert pr.2 s)) ∅

/-- The set of overlapping vendor codes produced by one pass of the pair
loop with overlap test `p`. -/
def combOverlapSet {α : Type} (code : α → String) (p : α → α → Prop)
    [∀ a b, Decidable (p a b)] (l : List α) : Finset String :=
  pairCodesSet (combPairs code p l)

/-- `DataProcessor._calculate_simple_overlaps`: the recorded pair list. -/
def simpleOverlapPairs (l : List Vendor) : List (String × String) :=
  combPairs Vendor.vendor_code simpleClose l

/-- `DataProcessor._calculate_simple_overlaps`: the overlapping-code set. -/
def simpleOverlapCodes (l : List Vendor) : Finset String :=
  combOverlapSet Vendor.vendor_code simpleClose l

/-- `DataProcessor._calculate_overlaps_for_subset`: returns the empty set
for fewer than two vendors, otherwise runs the same degree-space
distance test as `_calculate_simple_overlaps`. -/
def calcOverlapsForSubset (l : List Vendor) : Finset String :=
  if l.length < 2 then ∅ else simpleOverlapCodes l

/-- pandas `Series.max()` over a non-empty column (the `[]` case never
arises in the code paths modelled here). -/
def qmax : List ℚ → ℚ
  | [] => 0
  | x :: xs => xs.foldl max x

/-- pandas `Series.min()` over a non-empty column. -/
def qmin : List ℚ → ℚ
  | [] => 0
  | x :: xs => xs.foldl min x

/-- pandas `Series.mean()` (code paths only use it on non-empty columns). -/
def qmean (l : List ℚ) : ℚ := l.sum / l.length

/-- `DataProcessor._calculate_performance_score` for one row of `df`:
normalise `total_order_count` and `avg_daily_orders` by the column maxima
(0 when the maximum is not positive), then
`(total_norm * 0.6 + daily_norm * 0.4) * 100`. -/
def calcPerformanceScore (corpus : List Vendor) (v : Vendor) : ℚ :=
  let totalMax := qmax (corpus.map Vendor.total_order_count)
  let dailyMax := qmax (corpus.map Vendor.avg_daily_orders)
  let total_norm := if 0 < totalMax then v.total_order_count / totalMax else 0
  let daily_norm := if 0 < dailyMax then v.avg_daily_orders / dailyMax else 0
  (total_norm * 0.6 + daily_norm * 0.4) * 100

/-- Linear interpolation of a value list at fractional position `h`:
the value at position `floor h`, moved a fraction `h - floor h` of the way
towards the next value (the position past the end falls back to the base
value, matching numpy's clipped upper index). -/
def interpAt (s : List ℚ) (h : ℚ) : ℚ :=
  let j : ℕ := (Int.floor h).toNat
  let base := s.getD j 0
  base + (h - (j : ℚ)) * (s.getD (j + 1) base - base)

/-- pandas `Series.quantile(q)` with the default linear interpolation:
sort the values and interpolate at position `h = (n - 1) * q`. -/
def quantileLinear (l : List ℚ) (q : ℚ) : ℚ :=
  let s := List.insertionSort (fun a b => a ≤ b) l
  interpAt s (((s.length : ℚ) - 1) * q)

/-- `DataProcessor._categorize_volume` for one value of
`total_order_count`: `>= quantile(0.75)` gives High, otherwise
`>= quantile(0.25)` gives Medium, otherwise Low. -/
def categorizeVolume (corpus : List Vendor) (orders : ℚ) : String :=
  let high_threshold := quantileLinear (corpus.map Vendor.total_order_count) 0.75
  let low_threshold := quantileLinear (corpus.map Vendor.total_order_count) 0.25
  if high_threshold ≤ orders then "High"
  else if low_threshold ≤ orders then "Medium"
  else "Low"

/-- A vendor row of `self.vendors_df` after `_process_vendor_data` added
the derived `performance_score` and `volume_category` columns. -/
structure PVendor where
  vendor : Vendor
  performance_score : ℚ
  volume_category : String
deriving DecidableEq

/-- The tail of `DataProcessor._process_vendor_data`: attach
`performance_score` and `volume_category`, both computed over the full
ingested corpus `l`. -/
def processVendorData (l : List Vendor) : List PVendor :=
  l.map (fun v => ⟨v, calcPerformanceScore l v, categorizeVolume l v.total_order_count⟩)

/-- One vendor record as serialised for the web layer by
`get_vendor_data_for_js` / `filter_vendors_real_time`. -/
structure JsVendor where
  vendor_code : String
  latitude : ℚ
  longitude : ℚ
  total_order_count : ℚ
  organic_order_count : ℚ
  non_organic_order_count : ℚ
  organic_ratio : ℚ
  avg_daily_orders : ℚ
  is_overlapping : Bool
  performance_score : ℚ
  volume_category : String
deriving DecidableEq

/-- Serialise one `vendors_df` row against an overlapping-code set, as in
the dict built by `get_vendor_data_for_js` and `filter_vendors_real_time`
(stored `performance_score` / `volume_category` are copied through). -/
def toJs (ov : Finset String) (p : PVendor) : JsVendor :=
  ⟨p.vendor.vendor_code, p.vendor.latitude, p.vendor.longitude,
    p.vendor.total_order_count, p.vendor.organic_order_count,
    p.vendor.non_organic_order_count, p.vendor.organic_ratio,
    p.vendor.avg_daily_orders, decide (p.vendor.vendor_code ∈ ov),
    p.performance_score, p.volume_category⟩

/-- The `DataProcessor` state relevant to filtering and statistics:
the processed vendor table and the cached overlapping-code set produced
by the initial full pass of `_calculate_overlaps`. -/
structure DPState where
  vendors_df : List PVendor
  overlapping_vendor_codes : Finset String

/-- `DataProcessor.get_vendor_data_for_js`. -/
def get_vendor_data_for_js (st : DPState) : List JsVendor :=
  st.vendors_df.map (toJs st.overlapping_vendor_codes)

/-- `DataProcessor.filter_vendors_real_time`: an empty (falsy) hidden set
returns the serialised table and the *cached* overlap set; otherwise the
hidden codes are filtered out and the overlap set is recomputed for the
visible vendors with `_calculate_overlaps_for_subset` (which also yields
the empty set when the visible table is empty). -/
def filter_vendors_real_time (st : DPState) (hidden : List String) :
    List JsVendor × Finset String :=
  if hidden.isEmpty then (get_vendor_data_for_js st, st.overlapping_vendor_codes)
  else
    let visible := st.vendors_df.filter (fun p => decide (p.vendor.vendor_code ∉ hidden))
    let visible_overlapping := calcOverlapsForSubset (visible.map PVendor.vendor)
    (visible.map (toJs visible_overlapping), visible_overlapping)

/-- pandas sample variance (`ddof = 1`), the square of `Series.std()`. -/
def sampleVar (l : List ℚ) : ℚ :=
  (l.map (fun x => (x - qmean l) ^ 2)).sum / ((l.length : ℚ) - 1)

/-- pandas `Series.std()` (`ddof = 1`): `none` models the NaN that pandas
returns for fewer than two observations. -/
noncomputable def sampleStd (l : List ℚ) : Option ℝ :=
  if 2 ≤ l.length then some (Real.sqrt ((sampleVar l : ℚ) : ℝ)) else none

/-- The `{col}_mean/median/std/max/min/sum` block that
`_calculate_statistics` computes for one numeric column. -/
structure MetricStats where
  mean : ℚ
  median : ℚ
  std : Option ℝ
  max : ℚ
  min : ℚ
  sum : ℚ

/-- One numeric column's statistics, as in `_calculate_statistics`
(pandas `median()` is the linearly interpolated 0.5 quantile). -/
noncomputable def metricStats (l : List ℚ) : MetricStats :=
  ⟨qmean l, quantileLinear l 0.5, sampleStd l, qmax l, qmin l, l.sum⟩

/-- The fields of `self.vendor_statistics` modelled here. -/
structure VendorStatistics where
  total_vendors : ℕ
  overlapping_vendors : ℕ
  overlap_rate : ℚ
  total_order_stats : MetricStats
  organic_order_stats : MetricStats
  non_organic_order_stats : MetricStats
  avg_daily_stats : MetricStats
  lat_span : ℚ
  lon_span : ℚ
  vendor_density : ℚ
  high_volume_count : ℕ
  medium_volume_count : ℕ
  low_volume_count : ℕ

/-- `DataProcessor._calculate_statistics`: returns early (leaving the
stored statistics untouched, modelled as `none`) when `vendors_df` is
empty; otherwise computes counts, the overlap rate from the cached
overlapping-code set, per-column statistics, spans, the density guarded
by `area_km2 > 0`, and the volume-category counts. -/
noncomputable def calculate_statistics (st : DPState) : Option VendorStatistics :=
  if st.vendors_df.isEmpty then none
  else
    let n := st.vendors_df.length
    let ovn := st.overlapping_vendor_codes.card
    let rate : ℚ := if 0 < n then (ovn : ℚ) / (n : ℚ) * 100 else 0
    let lats := st.vendors_df.map (fun p => p.vendor.latitude)
    let lons := st.vendors_df.map (fun p => p.vendor.longitude)
    let lat_span := qmax lats - qmin lats
    let lon_span := qmax lons - qmin lons
    let area_km2 := lat_span * lon_span * 111000 * 111000 / 1000000
    let density : ℚ := if 0 < area_km2 then (n : ℚ) / area_km2 else 0
    some ⟨n, ovn, rate,
      metricStats (st.vendors_df.map (fun p => p.vendor.total_order_count)),
      metricStats (st.vendors_df.map (fun p => p.vendor.organic_order_count)),
      metricStats (st.vendors_df.map (fun p => p.vendor.non_organic_order_count)),
      metricStats (st.vendors_df.map (fun p => p.vendor.avg_daily_orders)),
      lat_span, lon_span, density,
      (st.vendors_df.filter (fun p => p.volume_category == "High")).length,
      (st.vendors_df.filter (fun p => p.volume_category == "Medium")).length,
      (st.vendors_df.filter (fun p => p.volume_category == "Low")).length⟩

/-- `app.py calculate_overlaps_for_vendors` over the serialised vendor
dicts: the same pair loop with the `* 111000 < 6000` distance test. -/
def calculate_overlaps_for_vendors (l : List JsVendor) : Finset String :=
  combOverlapSet JsVendor.vendor_code
    (fun a b => appClose a.latitude a.longitude b.latitude b.longitude) l

/-- The `statistics` dict assembled in `app.py /api/filter_vendors`. -/
structure AppStatistics where
  total_vendors : ℕ
  active_vendors : ℕ
  hidden_count : ℕ
  overlapping_vendors : ℕ
  overlap_rate : ℚ
  avg_orders : ℚ
  max_orders : ℚ

/-- The visible-vendor list of the `app.py` endpoints:
`[v for v in original_vendor_data if v['vendor_code'] not in hidden]`. -/
def appVisible (original : List JsVendor) (hidden : Finset String) : List JsVendor :=
  original.filter (fun v => decide (v.vendor_code ∉ hidden))

/-- The statistics block of `app.py filter_vendors`: overlaps are
recomputed for the visible vendors, and every ratio over the visible
list is guarded by its truthiness (`if visible_vendors else 0`);
`max_orders` uses `max(..., default=0)`. -/
def appFilterStatistics (original : List JsVendor) (hidden : Finset String) :
    AppStatistics :=
  let visible := appVisible original hidden
  let overlapping_visible := calculate_overlaps_for_vendors visible
  ⟨original.length, visible.length, hidden.card, overlapping_visible.card,
    if visible.isEmpty then 0
      else (overlapping_visible.card : ℚ) / (visible.length : ℚ) * 100,
    if visible.isEmpty then 0
      else (visible.map JsVendor.total_order_count).sum / (visible.length : ℚ),
    qmax (visible.map JsVendor.total_order_count)⟩

/-- The `ranking_mapping` dict literal of `app.py get_rankings`. -/
def ranking_mapping : List (String × (JsVendor → ℚ)) :=
  [("Total Orders", fun v => v.total_order_count),
   ("Organic Orders", fun v => v.organic_order_count),
   ("Non-Organic Orders", fun v => v.non_organic_order_count),
   ("Organic/Non-Organic Ratio", fun v => v.organic_ratio),
   ("Avg Daily Orders", fun v => v.avg_daily_orders)]

/-- `ranking_mapping.get(ranking_type)`. -/
def lookupMetric (t : String) : Option (JsVendor → ℚ) :=
  (ranking_mapping.find? (fun pr => pr.1 == t)).map Prod.snd

/-- Python `sorted(l, key=key, reverse=True)`: the language guarantees a
stable sort, so the result is the unique permutation of `l` that is
ordered by descending key and keeps elements with equal keys in their
original relative order; `List.insertionSort` with this relation computes
exactly that permutation (ties satisfy the relation, so an earlier
element is inserted before a later one with an equal key). -/
def pySortedDescBy {α : Type} (key : α → ℚ) (l : List α) : List α :=
  List.insertionSort (fun a b => key b ≤ key a) l

/-- `app.py get_rankings`: an unrecognised ranking type yields the
HTTP 400 error payload `'Invalid ranking type: <t>'`; otherwise the
visible vendors are sorted by the metric, descending, and ranks
`i + 1` are attached in sorted order. -/
def get_rankings (t : String) (visible : List JsVendor) :
    Except (ℕ × String) (List (ℕ × JsVendor)) :=
  match lookupMetric t with
  | none => Except.error (400, "Invalid ranking type: " ++ t)
  | some key =>
      Except.ok (((pySortedDescBy key visible).enum).map (fun pr => (pr.1 + 1, pr.2)))

/-- Modelled from the spec: the haversine great-circle distance in
meters between two coordinates in decimal degrees (the code itself never
computes a haversine distance; the spec's exact-mode agreement property
refers to it). Mean Earth radius 6371000 m. -/
noncomputable def haversineDistance (la1 lo1 la2 lo2 : ℚ) : ℝ :=
  let p1 := (la1 : ℝ) * Real.pi / 180
  let p2 := (la2 : ℝ) * Real.pi / 180
  let q1 := (lo1 : ℝ) * Real.pi / 180
  let q2 := (lo2 : ℝ) * Real.pi / 180
  2 * 6371000 * Real.arcsin (Real.sqrt
    (Real.sin ((p2 - p1) / 2) ^ 2 +
      Real.cos p1 * Real.cos p2 * Real.sin ((q2 - q1) / 2) ^ 2))

/-- Modelled from the spec: the exact-mode overlap decision — reproject
each point into a meters-based planar reference, buffer it into a disk of
radius `R`, and test pairwise intersection. Two disks of radius `R`
intersect exactly when the distance between their centers is at most
`2R`; the spec's distance contract for the region is the haversine
great-circle distance, which the accurate projection approximates. The
source's exact mode itself lives in external projection/geometry library
calls (`to_crs`, `buffer`, `intersects`) and is not in `src/`. -/
def exactClose (la1 lo1 la2 lo2 : ℚ) : Prop :=
  haversineDistance la1 lo1 la2 lo2 ≤ 2 * ((SERVICE_RADIUS : ℚ) : ℝ)

/-! Helper lemmas. -/

/-- `simpleClose` as a rational comparison of squared differences. -/
theorem simpleClose_iff (v w : Vendor) :
    simpleClose v w ↔
      (v.latitude - w.latitude) ^ 2 + (v.longitude - w.longitude) ^ 2 <
        overlapThresholdDeg ^ 2 :=
  degDistance_lt_iff v.latitude v.longitude w.latitude w.longitude
    overlapThresholdDeg (by norm_num [overlapThresholdDeg, SERVICE_RADIUS])

theorem le_foldl_max (b : ℚ) (xs : List ℚ) : b ≤ xs.foldl max b := by
  induction xs generalizing b with
  | nil => exact le_refl b
  | cons x xs ih =>
      simpa using le_trans (le_max_left b x) (ih (max b x))

theorem mem_le_foldl_max (a b : ℚ) (xs : List ℚ) (h : a ∈ xs) :
    a ≤ xs.foldl max b := by
  induction xs generalizing b with
  | nil => cases h
  | cons x xs ih =>
      rcases List.mem_cons.mp h with rfl | hmem
      · simpa using le_trans (le_max_right b a) (le_foldl_max (max b a) xs)
      · simpa using ih (max b x) hmem

/-- Every member of a column is bounded by the column maximum. -/
theorem le_qmax {l : List ℚ} {a : ℚ} (h : a ∈ l) : a ≤ qmax l := by
  cases l with
  | nil => cases h
  | cons x xs =>
      rcases List.mem_cons.mp h with rfl | hmem
      · exact le_foldl_max a xs
      · exact mem_le_foldl_max a x xs hmem

theorem getD_of_lt (l : List ℚ) (n : ℕ) (d : ℚ) (h : n < l.length) :
    l.getD n d = l.get ⟨n, h⟩ := by
  simp [List.getD_eq_getElem?_getD, List.getElem?_eq_getElem h]

theorem getD_of_ge (l : List ℚ) (n : ℕ) (d : ℚ) (h : l.length ≤ n) :
    l.getD n d = d := by
  simp [List.getD_eq_getElem?_getD, List.getElem?_eq_none h]

/-- On a sorted list, `getD` (default 0) is monotone over in-range
positions. -/
theorem sorted_getD_mono {s : List ℚ} (hs : s.Sorted (fun a b => a ≤ b))
    {i k : ℕ} (hik : i ≤ k) (hk : k < s.length) :
    s.getD i 0 ≤ s.getD k 0 := by
  have hi : i < s.length := lt_of_le_of_lt hik hk
  rw [getD_of_lt s i 0 hi, getD_of_lt s k 0 hk]
  exact hs.rel_get_of_le hik

/-- Linear interpolation over a sorted list is monotone in the position,
for positions within `[0, length - 1]`. -/
theorem interpAt_mono {s : List ℚ} (hs : s.Sorted (fun a b => a ≤ b))
    {ha hb : ℚ} (hha0 : 0 ≤ ha) (hab : ha ≤ hb)
    (hb1 : hb ≤ (s.length : ℚ) - 1) :
    interpAt s ha ≤ interpAt s hb := by
  have hhb0 : 0 ≤ hb := le_trans hha0 hab
  set n := s.length with hn
  set i : ℕ := (Int.floor ha).toNat with hi
  set k : ℕ := (Int.floor hb).toNat with hk
  have hicast : (i : ℚ) = (Int.floor ha : ℚ) := by
    rw [hi]
    exact_mod_cast congrArg (Int.cast : ℤ → ℚ)
      (Int.toNat_of_nonneg (Int.floor_nonneg.mpr hha0))
  have hkcast : (k : ℚ) = (Int.floor hb : ℚ) := by
    rw [hk]
    exact_mod_cast congrArg (Int.cast : ℤ → ℚ)
      (Int.toNat_of_nonneg (Int.floor_nonneg.mpr hhb0))
  have hile : (i : ℚ) ≤ ha := by rw [hicast]; exact Int.floor_le ha
  have hkle : (k : ℚ) ≤ hb := by rw [hkcast]; exact Int.floor_le hb
  have hgami : ha - (i : ℚ) < 1 := by
    rw [hicast]
    have := Int.lt_floor_add_one ha
    linarith
  have hgamk : hb - (k : ℚ) < 1 := by
    rw [hkcast]
    have := Int.lt_floor_add_one hb
    linarith
  have hik : i ≤ k := by
    rw [hi, hk]
    exact Int.toNat_le_toNat (Int.floor_le_floor hab)
  have hkn : k < n := by
    have hq1 : (k : ℚ) ≤ (n : ℚ) - 1 := le_trans hkle hb1
    have hq2 : (k : ℚ) + 1 ≤ (n : ℚ) := by linarith
    exact_mod_cast hq2
  have hin : i < n := lt_of_le_of_lt hik hkn
  rw [interpAt, interpAt]
  set A := s.getD i 0 with hA
  set B := s.getD (i + 1) A with hB
  set C := s.getD k 0 with hC
  set D := s.getD (k + 1) C with hD
  have hAB : A ≤ B := by
    by_cases hcase : i + 1 < n
    · rw [hB, getD_of_lt s (i + 1) A hcase, ← getD_of_lt s (i + 1) 0 hcase]
      exact sorted_getD_mono hs (Nat.le_succ i) hcase
    · rw [hB, getD_of_ge s (i + 1) A (by omega)]
  have hCD : C ≤ D := by
    by_cases hcase : k + 1 < n
    · rw [hD, getD_of_lt s (k + 1) C hcase, ← getD_of_lt s (k + 1) 0 hcase]
      exact sorted_getD_mono hs (Nat.le_succ k) hcase
    · rw [hD, getD_of_ge s (k + 1) C (by omega)]
  rw [← hi, ← hk]
  rcases Nat.lt_or_ge i k with hlt | hge
  · have hBC : B ≤ C := by
      have hi1 : i + 1 < n := lt_of_le_of_lt hlt hkn
      rw [hB, getD_of_lt s (i + 1) A hi1, ← getD_of_lt s (i + 1) 0 hi1]
      exact sorted_getD_mono hs hlt hkn
    have hvB : A + (ha - (i : ℚ)) * (B - A) ≤ B := by
      nlinarith [hAB, hgami, hile]
    have hCv : C ≤ C + (hb - (k : ℚ)) * (D - C) := by
      nlinarith [hCD, hkle]
    linarith [hvB, hBC, hCv]
  · have heq : i = k := le_antisymm hik hge
    have hAC : A = C := by rw [hA, hC, heq]
    have hBD : B = D := by rw [hB, hD, heq, hAC]
    rw [← hAC, ← hBD, ← heq]
    nlinarith [hAB, hab]

/-- `quantileLinear` is monotone in the quantile, for quantiles in
`[0, 1]`. -/
theorem quantileLinear_mono (l : List ℚ) {q q' : ℚ} (h0 : 0 ≤ q)
    (hqq : q ≤ q') (h1 : q' ≤ 1) :
    quantileLinear l q ≤ quantileLinear l q' := by
  rw [quantileLinear, quantileLinear]
  set s := List.insertionSort (fun a b => a ≤ b) l with hs
  have hsorted : s.Sorted (fun a b => a ≤ b) :=
    List.sorted_insertionSort (fun a b => a ≤ b) l
  cases hnil : s with
  | nil => simp [interpAt]
  | cons x xs =>
      have hlen : 1 ≤ s.length := by rw [hnil]; simp
      have hlen1 : 0 ≤ (s.length : ℚ) - 1 := by
        have : (1 : ℚ) ≤ (s.length : ℚ) := by exact_mod_cast hlen
        linarith
      rw [← hnil]
      exact interpAt_mono hsorted (mul_nonneg hlen1 h0)
        (mul_le_mul_of_nonneg_left hqq hlen1)
        (by nlinarith [hlen1, h1, le_trans h0 hqq])

/-- Concrete sample vendor: total orders 100. -/
def tvA : Vendor := ⟨"A", 71/2, 257/5, 100, 0, 0, 0, 0⟩

/-- Concrete sample vendor 0.054 degrees of latitude north of `tvA`:
total orders 50. -/
def tvB : Vendor := ⟨"B", 17777/500, 257/5, 50, 0, 0, 0, 0⟩

/-- C7: for every vendor of a corpus with non-negative order metrics, the
performance score is the 0.6/0.4-weighted combination of the max-normalised
`total_order_count` and `avg_daily_orders` (each normalisation guarded to 0
when the corpus maximum is not positive), scaled by 100, and the score
always lies in [0, 100]. -/
theorem c7_performance_score_spec (corpus : List Vendor) (v : Vendor)
    (hv : v ∈ corpus)
    (hnn : ∀ w ∈ corpus, 0 ≤ w.total_order_count ∧ 0 ≤ w.avg_daily_orders) :
    calcPerformanceScore corpus v =
      ((if 0 < qmax (corpus.map Vendor.total_order_count)
          then v.total_order_count / qmax (corpus.map Vendor.total_order_count)
          else 0) * 0.6 +
        (if 0 < qmax (corpus.map Vendor.avg_daily_orders)
          then v.avg_daily_orders / qmax (corpus.map Vendor.avg_daily_orders)
          else 0) * 0.4) * 100 ∧
      0 ≤ calcPerformanceScore corpus v ∧ calcPerformanceScore corpus v ≤ 100 := by
  have hvt : v.total_order_count ∈ corpus.map Vendor.total_order_count :=
    List.mem_map_of_mem Vendor.total_order_count hv
  have hvd : v.avg_daily_orders ∈ corpus.map Vendor.avg_daily_orders :=
    List.mem_map_of_mem Vendor.avg_daily_orders hv
  have hv0 := hnn v hv
  constructor
  · rfl
  · rw [calcPerformanceScore]
    set M := qmax (corpus.map Vendor.total_order_count) with hM
    set D := qmax (corpus.map Vendor.avg_daily_orders) with hD
    have htn : 0 ≤ (if 0 < M then v.total_order_count / M else 0) ∧
        (if 0 < M then v.total_order_count / M else 0) ≤ 1 := by
      by_cases h : 0 < M
      · rw [if_pos h]
        exact ⟨div_nonneg hv0.1 (le_of_lt h),
          (div_le_one h).mpr (le_qmax hvt)⟩
      · rw [if_neg h]
        norm_num
    have hdn : 0 ≤ (if 0 < D then v.avg_daily_orders / D else 0) ∧
        (if 0 < D then v.avg_daily_orders / D else 0) ≤ 1 := by
      by_cases h : 0 < D
      · rw [if_pos h]
        exact ⟨div_nonneg hv0.2 (le_of_lt h),
          (div_le_one h).mpr (le_qmax hvd)⟩
      · rw [if_neg h]
        norm_num
    constructor
    · nlinarith [htn.1, hdn.1]
    · nlinarith [htn.1, htn.2, hdn.1, hdn.2]

/-- Witness for C7 at a concrete two-vendor corpus. -/
theorem c7_performance_score_spec_witness :
    calcPerformanceScore [tvA, tvB] tvB =
      ((if 0 < qmax ([tvA, tvB].map Vendor.total_order_count)
          then tvB.total_order_count / qmax ([tvA, tvB].map Vendor.total_order_count)
          else 0) * 0.6 +
        (if 0 < qmax ([tvA, tvB].map Vendor.avg_daily_orders)
          then tvB.avg_daily_orders / qmax ([tvA, tvB].map Vendor.avg_daily_orders)
          else 0) * 0.4) * 100 ∧
      0 ≤ calcPerformanceScore [tvA, tvB] tvB ∧
      calcPerformanceScore [tvA, tvB] tvB ≤ 100 :=
  c7_performance_score_spec [tvA, tvB] tvB (by simp)
    (by
      intro w hw
      rcases List.mem_cons.mp hw with rfl | hw2
      · norm_num [tvA]
      · rcases List.mem_cons.mp hw2 with rfl | hw3
        · norm_num [tvB]
        · cases hw3)

/-- C8: over a non-empty corpus, `volume_category` classifies an order
count against the linearly interpolated 0.75 and 0.25 quantiles of
`total_order_count`: at least p75 gives High, at least p25 but below p75
gives Medium, below p25 gives Low, with boundary ties resolving to the
higher category via the inclusive comparisons. -/
theorem c8_volume_category_spec (corpus : List Vendor) (_hne : corpus ≠ [])
    (x : ℚ) :
    (categorizeVolume corpus x = "High" ↔
      quantileLinear (corpus.map Vendor.total_order_count) 0.75 ≤ x) ∧
    (categorizeVolume corpus x = "Medium" ↔
      (quantileLinear (corpus.map Vendor.total_order_count) 0.25 ≤ x ∧
        x < quantileLinear (corpus.map Vendor.total_order_count) 0.75)) ∧
    (categorizeVolume corpus x = "Low" ↔
      x < quantileLinear (corpus.map Vendor.total_order_count) 0.25) := by
  have hmono : quantileLinear (corpus.map Vendor.total_order_count) 0.25 ≤
      quantileLinear (corpus.map Vendor.total_order_count) 0.75 :=
    quantileLinear_mono (corpus.map Vendor.total_order_count)
      (by norm_num) (by norm_num) (by norm_num)
  rw [categorizeVolume]
  by_cases h75 : quantileLinear (corpus.map Vendor.total_order_count) 0.75 ≤ x
  · rw [if_pos h75]
    refine ⟨by simp [h75], ?_, ?_⟩
    · simp only [show ("High" : String) ≠ "Medium" from by decide, false_iff]
      rintro ⟨-, hlt⟩
      exact absurd h75 (not_le.mpr hlt)
    · simp only [show ("High" : String) ≠ "Low" from by decide, false_iff]
      intro hlt
      exact absurd (le_trans hmono h75) (not_le.mpr hlt)
  · rw [if_neg h75]
    by_cases h25 : quantileLinear (corpus.map Vendor.total_order_count) 0.25 ≤ x
    · rw [if_pos h25]
      refine ⟨by simp [h75], ?_, ?_⟩
      · simp only [true_iff, show ("Medium" : String) = "Medium" from rfl]
        exact ⟨h25, lt_of_not_le h75⟩
      · simp only [show ("Medium" : String) ≠ "Low" from by decide, false_iff]
        intro hlt
        exact absurd h25 (not_le.mpr hlt)
    · rw [if_neg h25]
      refine ⟨by simp [h75], ?_, by simp [lt_of_not_le h25]⟩
      simp only [show ("Low" : String) ≠ "Medium" from by decide, false_iff]
      rintro ⟨hge, -⟩
      exact absurd hge h25

/-- Witness for C8 at a concrete two-vendor corpus with `x = 100`. -/
theorem c8_volume_category_spec_witness :
    (categorizeVolume [tvA, tvB] 100 = "High" ↔
      quantileLinear ([tvA, tvB].map Vendor.total_order_count) 0.75 ≤ 100) ∧
    (categorizeVolume [tvA, tvB] 100 = "Medium" ↔
      (quantileLinear ([tvA, tvB].map Vendor.total_order_count) 0.25 ≤ 100 ∧
        (100 : ℚ) < quantileLinear ([tvA, tvB].map Vendor.total_order_count) 0.75)) ∧
    (categorizeVolume [tvA, tvB] 100 = "Low" ↔
      (100 : ℚ) < quantileLinear ([tvA, tvB].map Vendor.total_order_count) 0.25) :=
  c8_volume_category_spec [tvA, tvB] (by simp) 100

/-- Every pair recorded by the pair loop lists its two codes in input
order: `[pr.1, pr.2]` is a sublist of the input's code list. -/
theorem mem_combPairs_sublist {α : Type} (code : α → String)
    (p : α → α → Prop) [∀ a b, Decidable (p a b)] (l : List α) :
    ∀ pr ∈ combPairs code p l, [pr.1, pr.2].Sublist (l.map code) := by
  induction l with
  | nil => simp [combPairs]
  | cons v rest ih =>
      intro pr hpr
      rw [combPairs] at hpr
      rcases List.mem_append.mp hpr with hA | hB
      · rcases List.mem_map.mp hA with ⟨w, hw, rfl⟩
        have hwrest : w ∈ rest := List.mem_of_mem_filter hw
        simp only [List.map_cons]
        exact List.Sublist.cons₂ (code v)
          (List.singleton_sublist.mpr (List.mem_map_of_mem code hwrest))
      · exact (ih pr hB).trans
          ((List.sublist_cons_self (code v) (rest.map code)).trans
            (by simp [List.map_cons]))

/-- Both codes of a recorded pair come from the input list. -/
theorem mem_combPairs_codes {α : Type} (code : α → String)
    (p : α → α → Prop) [∀ a b, Decidable (p a b)] (l : List α)
    (pr : String × String) (hpr : pr ∈ combPairs code p l) :
    pr.1 ∈ l.map code ∧ pr.2 ∈ l.map code := by
  have hsub := mem_combPairs_sublist code p l pr hpr
  exact ⟨hsub.subset (by simp), hsub.subset (by simp)⟩

/-- When the input codes are distinct, the recorded pairs are pairwise
distinct as unordered pairs: no unordered pair appears twice. -/
theorem combPairs_unordered_nodup {α : Type} (code : α → String)
    (p : α → α → Prop) [∀ a b, Decidable (p a b)] (l : List α)
    (hnd : (l.map code).Nodup) :
    ((combPairs code p l).map
      (fun pr => ({pr.1, pr.2} : Finset String))).Nodup := by
  induction l with
  | nil => simp [combPairs]
  | cons v rest ih =>
      rw [List.map_cons] at hnd
      have hv : code v ∉ rest.map code := (List.nodup_cons.mp hnd).1
      have hrest : (rest.map code).Nodup := (List.nodup_cons.mp hnd).2
      rw [combPairs, List.map_append]
      refine List.nodup_append.mpr ⟨?_, ih hrest, ?_⟩
      · rw [List.map_map]
        refine List.Nodup.map_on ?_ ((hrest.of_map code).filter _)
        intro w hw w' hw' heqset
        simp only [Function.comp] at heqset
        have hwrest : w ∈ rest := List.mem_of_mem_filter hw
        have hw'rest : w' ∈ rest := List.mem_of_mem_filter hw'
        have hwv : code w ≠ code v := by
          intro hcontra
          exact hv (hcontra ▸ List.mem_map_of_mem code hwrest)
        have hmem : code w ∈ ({code v, code w'} : Finset String) := by
          rw [← heqset]
          simp
        have hcodes : code w = code w' := by
          rcases Finset.mem_insert.mp hmem with hcv | hcw'
          · exact absurd hcv hwv
          · simpa using hcw'
        exact List.inj_on_of_nodup_map hrest hwrest hw'rest hcodes
      · intro F hF hF'
        rw [List.map_map] at hF
        rcases List.mem_map.mp hF with ⟨w, _, rfl⟩
        rcases List.mem_map.mp hF' with ⟨pr, hpr, hpreq⟩
        have hcodes := mem_combPairs_codes code p rest pr hpr
        have hvin : code v ∈ ({pr.1, pr.2} : Finset String) := by
          rw [hpreq]
          simp
        rcases Finset.mem_insert.mp hvin with h1 | h2
        · exact hv (h1 ▸ hcodes.1)
        · exact hv ((by simpa using h2) ▸ hcodes.2)

/-- C9: in every overlap computation (the exact and the approximate mode
share the same pair loop, abstracted over the overlap test `p`), each
unordered pair of distinct-code vendors is recorded at most once, and each
recorded pair lists the vendor encountered first in the input before the
second. -/
theorem c9_pairs_unique_and_ordered {α : Type} (code : α → String)
    (p : α → α → Prop) [∀ a b, Decidable (p a b)] (l : List α)
    (hnd : (l.map code).Nodup) :
    ((combPairs code p l).map
      (fun pr => ({pr.1, pr.2} : Finset String))).Nodup ∧
    ∀ pr ∈ combPairs code p l, [pr.1, pr.2].Sublist (l.map code) :=
  ⟨combPairs_unordered_nodup code p l hnd, mem_combPairs_sublist code p l⟩

/-- Witness for C9 on a concrete two-vendor list with the approximate
overlap test of `_calculate_simple_overlaps`. -/
theorem c9_pairs_unique_and_ordered_witness :
    (((combPairs Vendor.vendor_code simpleClose [tvA, tvB]).map
      (fun pr => ({pr.1, pr.2} : Finset String))).Nodup ∧
    ∀ pr ∈ combPairs Vendor.vendor_code simpleClose [tvA, tvB],
      [pr.1, pr.2].Sublist ([tvA, tvB].map Vendor.vendor_code)) :=
  c9_pairs_unique_and_ordered Vendor.vendor_code simpleClose [tvA, tvB]
    (by simp [tvA, tvB])

theorem foldl_insert_subset (S : Finset String)
    (pairs : List (String × String)) :
    ∀ acc : Finset String, acc ⊆ S → (∀ pr ∈ pairs, pr.1 ∈ S ∧ pr.2 ∈ S) →
      pairs.foldl (fun s pr => insert pr.1 (insert pr.2 s)) acc ⊆ S := by
  induction pairs with
  | nil =>
      intro acc hacc _
      simpa using hacc
  | cons pr rest ih =>
      intro acc hacc hall
      rw [List.foldl_cons]
      have hpr := hall pr (List.mem_cons_self pr rest)
      refine ih _ ?_ (fun q hq => hall q (List.mem_cons_of_mem pr hq))
      rw [Finset.insert_subset_iff]
      refine ⟨hpr.1, ?_⟩
      rw [Finset.insert_subset_iff]
      exact ⟨hpr.2, hacc⟩

/-- The overlapping-code set only contains codes of the input vendors. -/
theorem combOverlapSet_subset {α : Type} (code : α → String)
    (p : α → α → Prop) [∀ a b, Decidable (p a b)] (l : List α) :
    combOverlapSet code p l ⊆ (l.map code).toFinset := by
  rw [combOverlapSet, pairCodesSet]
  refine foldl_insert_subset _ _ ∅ (Finset.empty_subset _) ?_
  intro pr hpr
  have h := mem_combPairs_codes code p l pr hpr
  exact ⟨List.mem_toFinset.mpr h.1, List.mem_toFinset.mpr h.2⟩

theorem combPairs_of_subsingleton {α : Type} (code : α → String)
    (p : α → α → Prop) [∀ a b, Decidable (p a b)] (l : List α)
    (h : l.length ≤ 1) : combPairs code p l = [] := by
  cases l with
  | nil => rfl
  | cons v rest =>
      cases rest with
      | nil => simp [combPairs]
      | cons w t => simp at h

/-- No overlapping codes arise from fewer than two vendors. -/
theorem combOverlapSet_of_subsingleton {α : Type} (code : α → String)
    (p : α → α → Prop) [∀ a b, Decidable (p a b)] (l : List α)
    (h : l.length ≤ 1) : combOverlapSet code p l = ∅ := by
  rw [combOverlapSet, combPairs_of_subsingleton code p l h]
  rfl

/-- At most as many overlapping vendors as input vendors. -/
theorem combOverlapSet_card_le {α : Type} (code : α → String)
    (p : α → α → Prop) [∀ a b, Decidable (p a b)] (l : List α) :
    (combOverlapSet code p l).card ≤ l.length := by
  refine le_trans (Finset.card_le_card (combOverlapSet_subset code p l)) ?_
  refine le_trans (List.toFinset_card_le (l.map code)) ?_
  simp

/-- Concrete serialised vendors for witnesses. -/
def tjA : JsVendor := ⟨"A", 71/2, 257/5, 100, 0, 0, 0, 0, false, 0, "High"⟩

def tjB : JsVendor := ⟨"B", 17777/500, 257/5, 50, 0, 0, 0, 0, false, 0, "Medium"⟩

/-- C2: the app-level overlap rate equals
`overlapping_vendors / len(visible) * 100` with the empty-corpus guard, is
always within [0, 100], and vanishes on corpora with at most one member;
the stored statistics of `_calculate_statistics` satisfy the same
invariant (its overlapping-code set is always a subset of the stored
vendors' codes, here taken as a hypothesis). -/
theorem c2_overlap_rate_invariant (original : List JsVendor)
    (hidden : Finset String) (st : DPState) (s : VendorStatistics)
    (hs : calculate_statistics st = some s)
    (hsub : st.overlapping_vendor_codes ⊆
      (st.vendors_df.map (fun p => p.vendor.vendor_code)).toFinset) :
    ((appFilterStatistics original hidden).overlap_rate =
      (if (appVisible original hidden).length = 0 then 0
        else ((appFilterStatistics original hidden).overlapping_vendors : ℚ) /
          ((appVisible original hidden).length : ℚ) * 100)) ∧
    0 ≤ (appFilterStatistics original hidden).overlap_rate ∧
    (appFilterStatistics original hidden).overlap_rate ≤ 100 ∧
    ((appVisible original hidden).length ≤ 1 →
      (appFilterStatistics original hidden).overlap_rate = 0) ∧
    s.overlap_rate = (s.overlapping_vendors : ℚ) / (s.total_vendors : ℚ) * 100 ∧
    0 ≤ s.overlap_rate ∧ s.overlap_rate ≤ 100 := by
  have happ : ∀ v : List JsVendor,
      (calculate_overlaps_for_vendors v).card ≤ v.length := fun v =>
    combOverlapSet_card_le _ _ v
  have hrate : (appFilterStatistics original hidden).overlap_rate =
      (if (appVisible original hidden).isEmpty then 0
        else ((calculate_overlaps_for_vendors (appVisible original hidden)).card : ℚ) /
          ((appVisible original hidden).length : ℚ) * 100) := rfl
  have hovl : (appFilterStatistics original hidden).overlapping_vendors =
      (calculate_overlaps_for_vendors (appVisible original hidden)).card := rfl
  have hbound : ∀ v : List JsVendor, ¬v.isEmpty →
      0 ≤ ((calculate_overlaps_for_vendors v).card : ℚ) / (v.length : ℚ) * 100 ∧
      ((calculate_overlaps_for_vendors v).card : ℚ) / (v.length : ℚ) * 100 ≤ 100 := by
    intro v hv
    have hlen : 0 < v.length := by
      cases v with
      | nil => simp at hv
      | cons a t => simp
    have hlenq : (0 : ℚ) < (v.length : ℚ) := by exact_mod_cast hlen
    have hcard : ((calculate_overlaps_for_vendors v).card : ℚ) ≤ (v.length : ℚ) := by
      exact_mod_cast happ v
    constructor
    · positivity
    · have hdiv : ((calculate_overlaps_for_vendors v).card : ℚ) / (v.length : ℚ) ≤ 1 :=
        (div_le_one hlenq).mpr hcard
      nlinarith [hdiv]
  refine ⟨?_, ?_, ?_, ?_, ?_⟩
  · rw [hrate, hovl]
    by_cases hemp : (appVisible original hidden).isEmpty
    · rw [if_pos hemp, if_pos (List.isEmpty_iff_length_eq_zero.mp hemp)]
    · rw [if_neg hemp,
        if_neg (fun h0 => hemp (List.isEmpty_iff_length_eq_zero.mpr h0))]
  · rw [hrate]
    by_cases hemp : (appVisible original hidden).isEmpty
    · rw [if_pos hemp]
    · rw [if_neg hemp]
      exact (hbound _ hemp).1
  · rw [hrate]
    by_cases hemp : (appVisible original hidden).isEmpty
    · rw [if_pos hemp]
      norm_num
    · rw [if_neg hemp]
      exact (hbound _ hemp).2
  · intro hle
    rw [hrate]
    by_cases hemp : (appVisible original hidden).isEmpty
    · rw [if_pos hemp]
    · rw [if_neg hemp]
      have hz : calculate_overlaps_for_vendors (appVisible original hidden) = ∅ :=
        combOverlapSet_of_subsingleton _ _ _ hle
      rw [hz]
      simp
  · rw [calculate_statistics] at hs
    by_cases hemp : st.vendors_df.isEmpty
    · rw [if_pos hemp] at hs
      cases hs
    · rw [if_neg hemp] at hs
      have hlen : 0 < st.vendors_df.length :=
        Nat.pos_of_ne_zero
          (fun h0 => hemp (List.isEmpty_iff_length_eq_zero.mpr h0))
      have hcard : st.overlapping_vendor_codes.card ≤ st.vendors_df.length := by
        refine le_trans (Finset.card_le_card hsub) ?_
        refine le_trans (List.toFinset_card_le _) ?_
        simp
      obtain rfl := (Option.some.inj hs).symm
      refine ⟨?_, ?_, ?_⟩
      · simp only [if_pos hlen]
      · simp only [if_pos hlen]
        positivity
      · simp only [if_pos hlen]
        have hlenq : (0 : ℚ) < (st.vendors_df.length : ℚ) := by exact_mod_cast hlen
        have hcq : (st.overlapping_vendor_codes.card : ℚ) ≤
            (st.vendors_df.length : ℚ) := by exact_mod_cast hcard
        have hdiv : (st.overlapping_vendor_codes.card : ℚ) /
            (st.vendors_df.length : ℚ) ≤ 1 := (div_le_one hlenq).mpr hcq
        nlinarith [hdiv]

/-- Concrete processed row and its statistics snapshot, for witnesses. -/
def tpA : PVendor := ⟨tvA, 60, "High"⟩

def tstatA : VendorStatistics :=
  ⟨1, 0, 0, ⟨100, 100, none, 100, 100, 100⟩, ⟨0, 0, none, 0, 0, 0⟩,
    ⟨0, 0, none, 0, 0, 0⟩, ⟨0, 0, none, 0, 0, 0⟩, 0, 0, 0, 1, 0, 0⟩

/-- Witness for C2 at a concrete one-vendor corpus and statistics
snapshot. -/
theorem c2_overlap_rate_invariant_witness :
    ((appFilterStatistics [tjA] ∅).overlap_rate =
      (if (appVisible [tjA] ∅).length = 0 then 0
        else ((appFilterStatistics [tjA] ∅).overlapping_vendors : ℚ) /
          ((appVisible [tjA] ∅).length : ℚ) * 100)) ∧
    0 ≤ (appFilterStatistics [tjA] ∅).overlap_rate ∧
    (appFilterStatistics [tjA] ∅).overlap_rate ≤ 100 ∧
    ((appVisible [tjA] ∅).length ≤ 1 →
      (appFilterStatistics [tjA] ∅).overlap_rate = 0) ∧
    tstatA.overlap_rate =
      (tstatA.overlapping_vendors : ℚ) / (tstatA.total_vendors : ℚ) * 100 ∧
    0 ≤ tstatA.overlap_rate ∧ tstatA.overlap_rate ≤ 100 :=
  c2_overlap_rate_invariant [tjA] ∅ ⟨[tpA], ∅⟩ tstatA
    (by
      simp [calculate_statistics, tpA, tvA, metricStats, sampleStd, sampleVar,
        qmean, qmax, qmin, quantileLinear, interpAt, tstatA])
    (by simp)

/-- C6 counterexample: over the single-vendor corpus `[tpA]`
(`total_order_count = 100`), `_calculate_statistics` stores mean 100 (not
0) and a NaN sample standard deviation (pandas `std` with `ddof = 1`,
modelled as `none`), so the per-metric statistics of a single-vendor
corpus are neither all 0 nor NaN-free. -/
theorem c6_counterexample :
    (calculate_statistics ⟨[tpA], ∅⟩).map
        (fun s => (s.total_order_stats.mean, s.total_order_stats.std)) =
      some (100, none) ∧ (100 : ℚ) ≠ 0 := by
  constructor
  · simp [calculate_statistics, tpA, tvA, metricStats, sampleStd, sampleVar,
      qmean, qmax, qmin, quantileLinear, interpAt]
  · norm_num

/-- C6 amended: an empty corpus skips the statistics pass (no result, no
exception); a single-vendor corpus yields an empty overlap set in both
overlap passes, overlap rate 0, density 0 (zero bounding area), a NaN
(`none`) sample standard deviation, and mean/median/max/min/sum equal to
the vendor's own value; the app-level statistics over an empty visible
corpus are guarded to 0. -/
theorem c6_empty_and_singleton_statistics (v : Vendor) (sc : ℚ) (cat : String)
    (ov : Finset String) :
    calculate_statistics ⟨[], ov⟩ = none ∧
    simpleOverlapCodes [v] = ∅ ∧
    calcOverlapsForSubset [v] = ∅ ∧
    (calculate_statistics ⟨[⟨v, sc, cat⟩], ∅⟩).map
        (fun s => (s.total_vendors, s.overlap_rate, s.vendor_density,
          s.total_order_stats.std, s.total_order_stats.mean,
          s.total_order_stats.median, s.total_order_stats.max,
          s.total_order_stats.min, s.total_order_stats.sum)) =
      some (1, 0, 0, none, v.total_order_count, v.total_order_count,
        v.total_order_count, v.total_order_count, v.total_order_count) ∧
    (∀ (original : List JsVendor) (hidden : Finset String),
      appVisible original hidden = [] →
        (appFilterStatistics original hidden).overlap_rate = 0 ∧
        (appFilterStatistics original hidden).avg_orders = 0 ∧
        (appFilterStatistics original hidden).max_orders = 0) := by
  refine ⟨by simp [calculate_statistics], ?_, by simp [calcOverlapsForSubset],
    ?_, ?_⟩
  · rw [simpleOverlapCodes]
    exact combOverlapSet_of_subsingleton _ _ _ (by simp)
  · simp [calculate_statistics, metricStats, sampleStd, sampleVar,
      qmean, qmax, qmin, quantileLinear, interpAt]
  · intro original hidden hvis
    have hrate : (appFilterStatistics original hidden).overlap_rate =
        (if (appVisible original hidden).isEmpty then 0
          else ((calculate_overlaps_for_vendors (appVisible original hidden)).card : ℚ) /
            ((appVisible original hidden).length : ℚ) * 100) := rfl
    have havg : (appFilterStatistics original hidden).avg_orders =
        (if (appVisible original hidden).isEmpty then 0
          else ((appVisible original hidden).map JsVendor.total_order_count).sum /
            ((appVisible original hidden).length : ℚ)) := rfl
    have hmax : (appFilterStatistics original hidden).max_orders =
        qmax ((appVisible original hidden).map JsVendor.total_order_count) := rfl
    rw [hrate, havg, hmax, hvis]
    simp [qmax]

/-- Witness for the C6 amended claim at a concrete vendor and on the
empty visible corpus. -/
theorem c6_empty_and_singleton_statistics_witness :
    calculate_statistics ⟨[], ∅⟩ = none ∧
    simpleOverlapCodes [tvA] = ∅ ∧
    calcOverlapsForSubset [tvA] = ∅ ∧
    (calculate_statistics ⟨[⟨tvA, 60, "High"⟩], ∅⟩).map
        (fun s => (s.total_vendors, s.overlap_rate, s.vendor_density,
          s.total_order_stats.std, s.total_order_stats.mean,
          s.total_order_stats.median, s.total_order_stats.max,
          s.total_order_stats.min, s.total_order_stats.sum)) =
      some (1, 0, 0, none, tvA.total_order_count, tvA.total_order_count,
        tvA.total_order_count, tvA.total_order_count, tvA.total_order_count) ∧
    ((appFilterStatistics [] ∅).overlap_rate = 0 ∧
      (appFilterStatistics [] ∅).avg_orders = 0 ∧
      (appFilterStatistics [] ∅).max_orders = 0) :=
  ⟨(c6_empty_and_singleton_statistics tvA 60 "High" ∅).1,
    (c6_empty_and_singleton_statistics tvA 60 "High" ∅).2.1,
    (c6_empty_and_singleton_statistics tvA 60 "High" ∅).2.2.1,
    (c6_empty_and_singleton_statistics tvA 60 "High" ∅).2.2.2.1,
    (c6_empty_and_singleton_statistics tvA 60 "High" ∅).2.2.2.2 [] ∅ rfl⟩

/-- C3 counterexample: hiding vendor `"A"` leaves `["B"]` visible, yet the
filtered output reports `performance_score = 30` for `"B"` — the value
computed at ingestion over the full corpus `[tvA, tvB]` — while a
recomputation over the new visible corpus `[tvB]` would give 60. So
filtering does not recompute the score relative to the visible corpus. -/
theorem c3_counterexample :
    (filter_vendors_real_time ⟨processVendorData [tvA, tvB], ∅⟩ ["A"]).1.map
        JsVendor.performance_score = [30] ∧
    calcPerformanceScore [tvB] tvB = 60 ∧ (30 : ℚ) ≠ 60 := by
  refine ⟨?_, ?_, by norm_num⟩
  · simp [filter_vendors_real_time, processVendorData, toJs, tvA, tvB,
      calcPerformanceScore, qmax]
    norm_num
  · norm_num [calcPerformanceScore, qmax, tvB]

/-- C3 amended: for every hidden set, each vendor of the filtered output
carries the `performance_score` and `volume_category` computed at
ingestion over the full corpus; only the overlap set is recomputed over
the visible subset. -/
theorem c3_filter_keeps_ingestion_metrics (l : List Vendor)
    (cached : Finset String) (hidden : List String) (j : JsVendor)
    (hj : j ∈ (filter_vendors_real_time ⟨processVendorData l, cached⟩ hidden).1) :
    ∃ v, v ∈ l ∧ j.vendor_code = v.vendor_code ∧
      j.performance_score = calcPerformanceScore l v ∧
      j.volume_category = categorizeVolume l v.total_order_count := by
  rw [filter_vendors_real_time] at hj
  by_cases hemp : hidden.isEmpty
  · rw [if_pos hemp] at hj
    rcases List.mem_map.mp hj with ⟨p, hp, rfl⟩
    rcases List.mem_map.mp hp with ⟨v, hv, rfl⟩
    exact ⟨v, hv, rfl, rfl, rfl⟩
  · rw [if_neg hemp] at hj
    rcases List.mem_map.mp hj with ⟨p, hpfil, rfl⟩
    have hp : p ∈ processVendorData l := List.mem_of_mem_filter hpfil
    rcases List.mem_map.mp hp with ⟨v, hv, rfl⟩
    exact ⟨v, hv, rfl, rfl, rfl⟩

/-- Witness for the C3 amended claim on a concrete filtered output row. -/
theorem c3_filter_keeps_ingestion_metrics_witness :
    ∃ v, v ∈ [tvA, tvB] ∧
      (⟨"B", 17777/500, 257/5, 50, 0, 0, 0, 0, false, 30, "Low"⟩ :
        JsVendor).vendor_code = v.vendor_code ∧
      (⟨"B", 17777/500, 257/5, 50, 0, 0, 0, 0, false, 30, "Low"⟩ :
        JsVendor).performance_score = calcPerformanceScore [tvA, tvB] v ∧
      (⟨"B", 17777/500, 257/5, 50, 0, 0, 0, 0, false, 30, "Low"⟩ :
        JsVendor).volume_category =
        categorizeVolume [tvA, tvB] v.total_order_count :=
  c3_filter_keeps_ingestion_metrics [tvA, tvB] ∅ ["A"]
    ⟨"B", 17777/500, 257/5, 50, 0, 0, 0, 0, false, 30, "Low"⟩
    (by
      have hout : (filter_vendors_real_time
          ⟨processVendorData [tvA, tvB], ∅⟩ ["A"]).1 =
          [⟨"B", 17777/500, 257/5, 50, 0, 0, 0, 0, false, 30, "Low"⟩] := by
        simp [filter_vendors_real_time, processVendorData, toJs, tvA, tvB,
          calcPerformanceScore, qmax, categorizeVolume, quantileLinear,
          interpAt, calcOverlapsForSubset, simpleOverlapCodes, combOverlapSet,
          combPairs, pairCodesSet, List.insertionSort, List.orderedInsert]
        norm_num
      rw [hout]
      simp)

/-- Concrete vendor 0.06 degrees of longitude east of `tvA`: at Tehran's
latitude this is about 5.4 km of true distance (so exact mode would buffer
and flag the pair), but 0.06 degrees exceeds the approximate-mode degree
threshold `6000 / 111000 ≈ 0.054`, so the approximate test does not flag
it. -/
def tvD : Vendor := ⟨"D", 71/2, 2573/50, 80, 0, 0, 0, 0⟩

/-- C10: `filter_vendors_real_time` returns the cached overlap set without
recomputation when the hidden set is empty; any non-empty hidden set, even
one whose codes match no stored vendor, filters nothing but triggers a
fresh approximate-mode recomputation over the (unchanged) visible
vendors; consequently there are states in which the two calls report
different overlap sets for the same visible vendors. -/
theorem c10_filter_cached_vs_recompute :
    (∀ st : DPState,
      (filter_vendors_real_time st []).2 = st.overlapping_vendor_codes) ∧
    (∀ (st : DPState) (hidden : List String), hidden ≠ [] →
      (∀ c ∈ hidden, c ∉ st.vendors_df.map (fun p => p.vendor.vendor_code)) →
      (filter_vendors_real_time st hidden).2 =
        calcOverlapsForSubset (st.vendors_df.map PVendor.vendor) ∧
      (filter_vendors_real_time st hidden).1 =
        st.vendors_df.map
          (toJs (calcOverlapsForSubset (st.vendors_df.map PVendor.vendor)))) ∧
    (∃ st : DPState,
      (filter_vendors_real_time st []).2 ≠
        (filter_vendors_real_time st ["ghost"]).2) := by
  have hpart2 : ∀ (st : DPState) (hidden : List String), hidden ≠ [] →
      (∀ c ∈ hidden, c ∉ st.vendors_df.map (fun p => p.vendor.vendor_code)) →
      (filter_vendors_real_time st hidden).2 =
        calcOverlapsForSubset (st.vendors_df.map PVendor.vendor) ∧
      (filter_vendors_real_time st hidden).1 =
        st.vendors_df.map
          (toJs (calcOverlapsForSubset (st.vendors_df.map PVendor.vendor))) := by
    intro st hidden hne hout
    have hemp : ¬hidden.isEmpty := by
      intro h
      exact hne (List.isEmpty_iff.mp h)
    have hfil : st.vendors_df.filter
        (fun p => decide (p.vendor.vendor_code ∉ hidden)) = st.vendors_df := by
      rw [List.filter_eq_self]
      intro p hp
      rw [decide_eq_true_eq]
      intro hmem
      exact hout p.vendor.vendor_code hmem
        (List.mem_map_of_mem (fun q => q.vendor.vendor_code) hp)
    rw [filter_vendors_real_time, if_neg hemp]
    constructor
    · simp only [hfil]
    · simp only [hfil]
  refine ⟨fun st => rfl, hpart2, ?_⟩
  refine ⟨⟨processVendorData [tvA, tvD], {"A", "D"}⟩, ?_⟩
  have hfar : ¬simpleClose tvA tvD := by
    rw [simpleClose_iff]
    norm_num [overlapThresholdDeg, SERVICE_RADIUS, tvA, tvD]
  have h1 : (filter_vendors_real_time
      ⟨processVendorData [tvA, tvD], {"A", "D"}⟩ []).2 =
      ({"A", "D"} : Finset String) := rfl
  have hmapv : (processVendorData [tvA, tvD]).map PVendor.vendor =
      [tvA, tvD] := by
    simp [processVendorData, List.map_map]
  have h2 : (filter_vendors_real_time
      ⟨processVendorData [tvA, tvD], {"A", "D"}⟩ ["ghost"]).2 =
      (∅ : Finset String) := by
    rw [(hpart2 ⟨processVendorData [tvA, tvD], {"A", "D"}⟩ ["ghost"]
        (by simp) (by simp [processVendorData, tvA, tvD])).1]
    rw [show (⟨processVendorData [tvA, tvD], {"A", "D"}⟩ :
        DPState).vendors_df = processVendorData [tvA, tvD] from rfl, hmapv]
    rw [calcOverlapsForSubset, if_neg (by norm_num)]
    rw [simpleOverlapCodes, combOverlapSet]
    have hpairs : combPairs Vendor.vendor_code simpleClose [tvA, tvD] = [] := by
      simp [combPairs, hfar]
    rw [hpairs]
    rfl
  rw [h1, h2]
  intro hcontra
  exact absurd (hcontra ▸ Finset.mem_insert_self "A" {"D"})
    (Finset.not_mem_empty "A")

/-- Witness for C10 on a concrete state and an irrelevant hidden code. -/
theorem c10_filter_cached_vs_recompute_witness :
    (filter_vendors_real_time
        ⟨processVendorData [tvA, tvD], {"A", "D"}⟩ ["zzz"]).2 =
      calcOverlapsForSubset
        ((processVendorData [tvA, tvD]).map PVendor.vendor) ∧
    (filter_vendors_real_time
        ⟨processVendorData [tvA, tvD], {"A", "D"}⟩ ["zzz"]).1 =
      (processVendorData [tvA, tvD]).map
        (toJs (calcOverlapsForSubset
          ((processVendorData [tvA, tvD]).map PVendor.vendor))) :=
  c10_filter_cached_vs_recompute.2.1
    ⟨processVendorData [tvA, tvD], {"A", "D"}⟩ ["zzz"] (by simp)
    (by simp [processVendorData, tvA, tvD])

/-- C5 counterexample: the rejection of the unknown metric `"foo"` is the
HTTP 400 payload `'Invalid ranking type: foo'`, which names the offending
metric but does not name the recognized metric set — not even the first
recognized name `"Total Orders"` occurs in the message. -/
theorem c5_counterexample :
    get_rankings "foo" [] =
      Except.error (400, "Invalid ranking type: foo") ∧
    ¬("Total Orders".toList <:+: "Invalid ranking type: foo".toList) := by
  constructor
  · rfl
  · decide

/-- C5 amended: a ranking request whose metric name is not in
`ranking_mapping` fails with the HTTP 400 error payload naming the
offending metric (but not the recognized set); the error is returned to
the caller rather than raised. -/
theorem c5_invalid_metric_rejected (t : String) (visible : List JsVendor)
    (h : lookupMetric t = none) :
    get_rankings t visible =
      Except.error (400, "Invalid ranking type: " ++ t) ∧
    ∀ pr ∈ ranking_mapping, pr.1 ≠ t := by
  constructor
  · rw [get_rankings, h]
  · have hf : ranking_mapping.find? (fun pr => pr.1 == t) = none := by
      rw [lookupMetric] at h
      exact Option.map_eq_none'.mp h
    intro pr hpr
    have := List.find?_eq_none.mp hf pr hpr
    simpa using this

/-- Witness for the C5 amended claim at the concrete unknown metric
`"foo"`. -/
theorem c5_invalid_metric_rejected_witness :
    get_rankings "foo" [tjA] =
      Except.error (400, "Invalid ranking type: " ++ "foo") ∧
    ∀ pr ∈ ranking_mapping, pr.1 ≠ "foo" :=
  c5_invalid_metric_rejected "foo" [tjA] rfl

theorem filter_orderedInsert_of_eq {α : Type} (key : α → ℚ) (k : ℚ) (x : α)
    (s : List α) (hx : key x = k) :
    (List.orderedInsert (fun a b => key b ≤ key a) x s).filter
        (fun v => decide (key v = k)) =
      x :: s.filter (fun v => decide (key v = k)) := by
  induction s with
  | nil => simp [List.orderedInsert, hx]
  | cons b t ih =>
      rw [List.orderedInsert]
      by_cases hle : key b ≤ key x
      · rw [if_pos hle]
        simp [List.filter_cons, hx]
      · rw [if_neg hle]
        have hbk : key b ≠ k := fun hc => hle (le_of_eq (hc.trans hx.symm))
        simp [List.filter_cons, hbk, ih]

theorem filter_orderedInsert_of_ne {α : Type} (key : α → ℚ) (k : ℚ) (x : α)
    (s : List α) (hx : key x ≠ k) :
    (List.orderedInsert (fun a b => key b ≤ key a) x s).filter
        (fun v => decide (key v = k)) =
      s.filter (fun v => decide (key v = k)) := by
  induction s with
  | nil => simp [List.orderedInsert, hx]
  | cons b t ih =>
      rw [List.orderedInsert]
      by_cases hle : key b ≤ key x
      · rw [if_pos hle]
        simp [List.filter_cons, hx]
      · rw [if_neg hle]
        by_cases hbk : key b = k
        · simp [List.filter_cons, hbk, ih]
        · simp [List.filter_cons, hbk, ih]

/-- Stability of the Python sort: for every key value, the sorted list
keeps the elements carrying that key value in their original relative
order, i.e. ties are broken by ingestion order. -/
theorem pySortedDescBy_stable {α : Type} (key : α → ℚ) (l : List α)
    (k : ℚ) :
    (pySortedDescBy key l).filter (fun v => decide (key v = k)) =
      l.filter (fun v => decide (key v = k)) := by
  rw [pySortedDescBy]
  induction l with
  | nil => rfl
  | cons x l ih =>
      rw [List.insertionSort]
      by_cases hx : key x = k
      · rw [filter_orderedInsert_of_eq key k x _ hx, ih,
          List.filter_cons_of_pos (by simp [hx])]
      · rw [filter_orderedInsert_of_ne key k x _ hx, ih,
          List.filter_cons_of_neg (by simp [hx])]

/-- The Python sort is a permutation of its input. -/
theorem pySortedDescBy_perm {α : Type} (key : α → ℚ) (l : List α) :
    (pySortedDescBy key l).Perm l :=
  List.perm_insertionSort _ l

/-- The Python sort is ordered by descending key. -/
theorem pySortedDescBy_sorted {α : Type} (key : α → ℚ) (l : List α) :
    (pySortedDescBy key l).Sorted (fun a b => key b ≤ key a) := by
  haveI : IsTotal α (fun a b => key b ≤ key a) :=
    ⟨fun a b => le_total (key b) (key a)⟩
  haveI : IsTrans α (fun a b => key b ≤ key a) :=
    ⟨fun _ _ _ hab hbc => le_trans hbc hab⟩
  exact List.sorted_insertionSort _ l

/-- C4: when the metric is recognized, `get_rankings` succeeds with the
visible vendors sorted by the metric value, descending, as a permutation
of the input; ties keep their original ingestion order (stable sort); the
attached ranks are exactly 1..n in sorted order. Re-running on the same
input yields the same assignment because the computation is a pure
function of its input. -/
theorem c4_rank_sorted_stable_ranks (t : String) (key : JsVendor → ℚ)
    (visible : List JsVendor) (h : lookupMetric t = some key) :
    get_rankings t visible =
      Except.ok (((pySortedDescBy key visible).enum).map
        (fun pr => (pr.1 + 1, pr.2))) ∧
    (pySortedDescBy key visible).Perm visible ∧
    (pySortedDescBy key visible).Sorted (fun a b => key b ≤ key a) ∧
    (∀ k : ℚ, (pySortedDescBy key visible).filter (fun v => decide (key v = k)) =
      visible.filter (fun v => decide (key v = k))) ∧
    (((pySortedDescBy key visible).enum).map
        (fun pr => (pr.1 + 1, pr.2))).map Prod.fst =
      List.range' 1 visible.length := by
  refine ⟨?_, pySortedDescBy_perm key visible, pySortedDescBy_sorted key visible,
    pySortedDescBy_stable key visible, ?_⟩
  · rw [get_rankings, h]
  · rw [List.map_map]
    have hcomp : (Prod.fst ∘ fun pr : ℕ × JsVendor => (pr.1 + 1, pr.2)) =
        (fun pr : ℕ × JsVendor => pr.1 + 1) := rfl
    rw [hcomp]
    have hsplit : (fun pr : ℕ × JsVendor => pr.1 + 1) =
        ((fun i => i + 1) ∘ Prod.fst) := rfl
    rw [hsplit, ← List.map_map, List.enum_map_fst,
      (pySortedDescBy_perm key visible).length_eq, List.range'_eq_map_range]
    exact List.map_congr_left (fun i _ => Nat.add_comm i 1)

/-- Witness for C4: ranking two concrete vendors by Total Orders. -/
theorem c4_rank_sorted_stable_ranks_witness :
    get_rankings "Total Orders" [tjB, tjA] =
      Except.ok (((pySortedDescBy (fun v => v.total_order_count)
          [tjB, tjA]).enum).map (fun pr => (pr.1 + 1, pr.2))) ∧
    (pySortedDescBy (fun v => v.total_order_count) [tjB, tjA]).Perm
      [tjB, tjA] ∧
    (pySortedDescBy (fun v => v.total_order_count) [tjB, tjA]).Sorted
      (fun a b => b.total_order_count ≤ a.total_order_count) ∧
    (∀ k : ℚ, (pySortedDescBy (fun v => v.total_order_count)
        [tjB, tjA]).filter (fun v => decide (v.total_order_count = k)) =
      [tjB, tjA].filter (fun v => decide (v.total_order_count = k))) ∧
    (((pySortedDescBy (fun v => v.total_order_count) [tjB, tjA]).enum).map
        (fun pr => (pr.1 + 1, pr.2))).map Prod.fst =
      List.range' 1 ([tjB, tjA] : List JsVendor).length :=
  c4_rank_sorted_stable_ranks "Total Orders" (fun v => v.total_order_count)
    [tjB, tjA] rfl

/-- The latitude-separated pair `tvA`, `tvB` passes the degree-space
approximate test: planar distance 0.054 degrees < 6000/111000. -/
theorem tvAB_simpleClose : simpleClose tvA tvB := by
  rw [simpleClose_iff]
  norm_num [tvA, tvB, overlapThresholdDeg, SERVICE_RADIUS]

/-- The pair `tvA`, `tvB` also passes the app-level meter-space test
(planar distance 5994 m < 6000 m). -/
theorem tvAB_appClose :
    appClose tvA.latitude tvA.longitude tvB.latitude tvB.longitude := by
  rw [appClose_iff, degDistance_lt_iff _ _ _ _ _ (by norm_num)]
  norm_num [tvA, tvB]

/-- Yet the haversine distance of `tvA`, `tvB` is
`6371000 * 0.054 * π / 180 ≈ 6004.5 m`, not below `2R`. -/
theorem tvAB_haversine_not_lt :
    ¬haversineDistance tvA.latitude tvA.longitude tvB.latitude tvB.longitude <
      2 * ((SERVICE_RADIUS : ℚ) : ℝ) := by
  have h2R : 2 * ((SERVICE_RADIUS : ℚ) : ℝ) = 6000 := by
    norm_num [SERVICE_RADIUS]
  rw [h2R]
  set x : ℝ := 3 * Real.pi / 20000 with hxdef
  have hpipos := Real.pi_pos
  have hx0 : 0 ≤ x := by positivity
  have hxpi : x ≤ Real.pi := by nlinarith
  have hxpi2 : x ≤ Real.pi / 2 := by nlinarith
  have hsin0 : 0 ≤ Real.sin x := Real.sin_nonneg_of_nonneg_of_le_pi hx0 hxpi
  have key : haversineDistance tvA.latitude tvA.longitude tvB.latitude
      tvB.longitude = 2 * 6371000 * x := by
    simp only [haversineDistance, tvA, tvB]
    push_cast
    rw [show (257 : ℝ)/5 * Real.pi / 180 - (257 : ℝ)/5 * Real.pi / 180 = 0 from
      sub_self _]
    norm_num
    rw [show ((17777 : ℝ)/500 * Real.pi / 180 - (71 : ℝ)/2 * Real.pi / 180) / 2 =
      x from by rw [hxdef]; ring]
    rw [Real.sqrt_sq hsin0]
    rw [Real.arcsin_sin (by linarith) hxpi2]
  rw [key]
  intro hlt
  have hpi := Real.pi_gt_d6
  nlinarith

/-- The longitude-separated pair `tvA`, `tvD` (0.06 degrees apart) fails
the degree-space approximate test. -/
theorem tvAD_not_simpleClose : ¬simpleClose tvA tvD := by
  rw [simpleClose_iff]
  norm_num [tvA, tvD, overlapThresholdDeg, SERVICE_RADIUS]

/-- The pair `tvA`, `tvD` also fails the app-level meter-space test
(planar distance 6660 m, not below 6000 m). -/
theorem tvAD_not_appClose :
    ¬appClose tvA.latitude tvA.longitude tvD.latitude tvD.longitude := by
  rw [appClose_iff, degDistance_lt_iff _ _ _ _ _ (by norm_num)]
  norm_num [tvA, tvD]

set_option maxHeartbeats 1000000 in
/-- Yet the true (haversine) distance of the pair `tvA`, `tvD` is about
`2 * 6371000 * arcsin (cos 35.5° * sin 0.03°) ≈ 5432 m ≤ 2R`, so the
spec-modelled exact mode flags it: its two service disks intersect. -/
theorem tvAD_exactClose :
    exactClose tvA.latitude tvA.longitude tvD.latitude tvD.longitude := by
  rw [exactClose, show 2 * ((SERVICE_RADIUS : ℚ) : ℝ) = 6000 from by
    norm_num [SERVICE_RADIUS]]
  simp only [haversineDistance, tvA, tvD]
  push_cast
  rw [show (71 : ℝ)/2 * Real.pi / 180 - (71 : ℝ)/2 * Real.pi / 180 = 0 from
    sub_self _]
  norm_num
  rw [show ((2573 : ℝ)/50 * Real.pi / 180 - (257 : ℝ)/5 * Real.pi / 180) / 2 =
    Real.pi / 6000 from by ring]
  set a : ℝ := (71 : ℝ)/2 * Real.pi / 180 with hadef
  set y : ℝ := Real.pi / 6000 with hydef
  have hpi_lo := Real.pi_gt_d6
  have hpi_hi := Real.pi_lt_d6
  have hpi_pos := Real.pi_pos
  have hy0 : 0 ≤ y := by rw [hydef]; positivity
  have hypi : y ≤ Real.pi := by rw [hydef]; nlinarith
  have hsiny0 : 0 ≤ Real.sin y := Real.sin_nonneg_of_nonneg_of_le_pi hy0 hypi
  have ha_lo : (0.6195917 : ℝ) ≤ a := by rw [hadef]; nlinarith
  have ha_hi : a ≤ 0.619592 := by rw [hadef]; nlinarith
  have ha0 : 0 ≤ a := by linarith
  have ha2 : a ≤ Real.pi / 2 := by nlinarith
  have hcos0 : 0 ≤ Real.cos a :=
    Real.cos_nonneg_of_mem_Icc ⟨by linarith, ha2⟩
  rw [show Real.cos a * Real.cos a * Real.sin y ^ 2 =
    (Real.cos a * Real.sin y) ^ 2 from by ring]
  rw [Real.sqrt_sq (mul_nonneg hcos0 hsiny0)]
  have habs : |a| ≤ 1 := by rw [abs_of_nonneg ha0]; linarith
  have hcb := Real.cos_bound habs
  rw [abs_of_nonneg ha0] at hcb
  have hcos_le : Real.cos a ≤ 0.81573 := by
    have hub : Real.cos a - (1 - a ^ 2 / 2) ≤ a ^ 4 * (5 / 96) :=
      (abs_le.mp hcb).2
    have ha2_lo : (0.3838938 : ℝ) ≤ a ^ 2 := by
      nlinarith [sq_nonneg (a - 0.6195917), ha_lo]
    have ha2_hi : a ^ 2 ≤ 0.3838943 := by
      nlinarith [sq_nonneg (a - 0.619592), ha_hi, ha0]
    have ha4_hi : a ^ 4 ≤ 0.1473749 := by
      nlinarith [sq_nonneg (a ^ 2 - 0.3838943), ha2_hi, ha2_lo]
    nlinarith [hub, ha2_lo, ha4_hi]
  have hsiny_le : Real.sin y ≤ y :=
    le_of_lt (Real.sin_lt (by rw [hydef]; positivity))
  have hy_hi : y ≤ 0.0005236 := by rw [hydef]; nlinarith
  have hz : Real.cos a * Real.sin y ≤ 0.0004272 := by
    have hstep : Real.cos a * Real.sin y ≤ 0.81573 * y :=
      mul_le_mul hcos_le hsiny_le hsiny0 (by norm_num)
    nlinarith [hstep, hy_hi]
  have ht2 : (3 : ℝ) / 6371 ≤ Real.pi / 2 := by nlinarith
  have hsint : (3 : ℝ) / 6371 - ((3 : ℝ) / 6371) ^ 3 / 4 <
      Real.sin (3 / 6371) :=
    Real.sin_gt_sub_cube (by norm_num) (by norm_num)
  have hz_le_sint : Real.cos a * Real.sin y ≤ Real.sin (3 / 6371) := by
    nlinarith [hz, hsint]
  have harc : Real.arcsin (Real.cos a * Real.sin y) ≤ 3 / 6371 := by
    have hmono := Real.monotone_arcsin hz_le_sint
    rw [Real.arcsin_sin (by linarith) ht2] at hmono
    exact hmono
  linarith [harc]

/-- C1 amended: both approximate-mode tests — the degree-space test of
`_calculate_simple_overlaps` / `_calculate_overlaps_for_subset` and the
meter-space test of `app.py calculate_overlaps_for_vendors` — flag a pair
exactly when the planar-degree-approximated distance (degrees scaled by
111000 m/degree) is below `2R` with `R = SERVICE_RADIUS = 3000`. The two
modes do not agree in either direction: some approximate-flagged pairs
have haversine distance at least `2R` (the uniform scale understates the
meridian's ≈111195 m/degree), and some pairs whose exact service disks
intersect (spec-modelled: haversine distance at most `2R`) fail both
approximate tests (the uniform scale overstates the ≈90600 m/degree
east-west distance at 35.5° N). -/
theorem c1_approx_flags_iff_planar_distance (v w : Vendor) :
    (simpleClose v w ↔
      degDistance v.latitude v.longitude w.latitude w.longitude * 111000 <
        2 * ((SERVICE_RADIUS : ℚ) : ℝ)) ∧
    (appClose v.latitude v.longitude w.latitude w.longitude ↔
      degDistance v.latitude v.longitude w.latitude w.longitude * 111000 <
        2 * ((SERVICE_RADIUS : ℚ) : ℝ)) ∧
    (∃ a b : Vendor, simpleClose a b ∧
      appClose a.latitude a.longitude b.latitude b.longitude ∧
      ¬haversineDistance a.latitude a.longitude b.latitude b.longitude <
        2 * ((SERVICE_RADIUS : ℚ) : ℝ)) ∧
    (∃ a b : Vendor,
      exactClose a.latitude a.longitude b.latitude b.longitude ∧
      ¬simpleClose a b ∧
      ¬appClose a.latitude a.longitude b.latitude b.longitude) := by
  have h2R : 2 * ((SERVICE_RADIUS : ℚ) : ℝ) = 6000 := by
    norm_num [SERVICE_RADIUS]
  have hthr : ((overlapThresholdDeg : ℚ) : ℝ) = 6000 / 111000 := by
    norm_num [overlapThresholdDeg, SERVICE_RADIUS]
  refine ⟨?_, ?_, ?_, ?_⟩
  · rw [simpleClose, hthr, h2R]
    constructor
    · intro h
      nlinarith
    · intro h
      nlinarith
  · rw [appClose, h2R]
  · exact ⟨tvA, tvB, tvAB_simpleClose, tvAB_appClose, tvAB_haversine_not_lt⟩
  · exact ⟨tvA, tvD, tvAD_exactClose, tvAD_not_simpleClose, tvAD_not_appClose⟩

/-- C1 counterexample: vendors `tvA` and `tvB`, 0.054 degrees of latitude
apart, are flagged by both approximate tests (planar distance 5994 m),
yet their haversine distance ≈ 6004.5 m is not below `2R`; and vendors
`tvA` and `tvD`, 0.06 degrees of longitude apart, have intersecting exact
service disks (haversine ≈ 5432 m ≤ 2R, spec-modelled exact mode) yet
fail both approximate tests — so neither direction of the claimed
mode agreement holds. -/
theorem c1_counterexample :
    simpleClose tvA tvB ∧
    appClose tvA.latitude tvA.longitude tvB.latitude tvB.longitude ∧
    ¬haversineDistance tvA.latitude tvA.longitude tvB.latitude tvB.longitude <
      2 * ((SERVICE_RADIUS : ℚ) : ℝ) ∧
    exactClose tvA.latitude tvA.longitude tvD.latitude tvD.longitude ∧
    ¬simpleClose tvA tvD ∧
    ¬appClose tvA.latitude tvA.longitude tvD.latitude tvD.longitude :=
  ⟨tvAB_simpleClose, tvAB_appClose, tvAB_haversine_not_lt,
    tvAD_exactClose, tvAD_not_simpleClose, tvAD_not_appClose⟩

end Piz
